import Mathlib

/-!
Verification development for the adios2py index-translation core.

The definitions below are a shallow embedding of `src/adios2py/file.py`
(`File._read`, `File._write`, `File._write_attribute`, `File._read_attribute`,
`File._begin_step`, `File._end_step`) and `src/adios2py/steps_proxy.py`
(`StepsProxy.__iter__`, `StepsProxy.__getitem__`).  Python machine state that
the code reads (mode string, current step, step count, declared variable
shapes, attribute store) is passed explicitly; calls into the external ADIOS2
engine are recorded as values of explicit call types.  The external engine
itself is out of scope (the spec treats it as an opaque collaborator), so its
responses (step statuses, current step counter) are scripted inputs.
-/

/-- The Python exception kinds raised by the modelled code paths. -/
inductive Err where
  | indexError (msg : String)
  | valueError (msg : String)
  | assertionError
  | notImplementedError
  | keyError (msg : String)
  | eofError
  | runtimeError
  deriving Repr, DecidableEq

/-- One selector of an index expression, as accepted by `File._read`:
a Python `int` (`SupportsIndex`), a `slice(start, stop, step)` object with
optional components, the `Ellipsis` object, or `None`. -/
inductive Sel where
  | int (i : Int)
  | slc (start stop step : Option Int)
  | ellip
  | none
  deriving Repr, DecidableEq

/-- Python `slice.indices(length)`: resolve the optional start/stop/step of a
slice object against a dimension length, clamping to the valid range
(CPython `PySlice_GetIndicesEx`).  A zero step raises `ValueError`. -/
def sliceIndices (start stop step : Option Int) (length : Int) :
    Except Err (Int × Int × Int) :=
  let st := step.getD 1
  if st = 0 then
    .error (.valueError "slice step cannot be zero")
  else
    let lower : Int := if st < 0 then -1 else 0
    let upper : Int := if st < 0 then length - 1 else length
    let start' : Int :=
      match start with
      | Option.none => if st < 0 then upper else lower
      | Option.some v => if v < 0 then max (v + length) lower else min v upper
    let stop' : Int :=
      match stop with
      | Option.none => if st < 0 then lower else upper
      | Option.some v => if v < 0 then max (v + length) lower else min v upper
    .ok (start', stop', st)

/-- The full slice `slice(None)`, used when expanding an ellipsis and when
padding a too-short index expression. -/
def fullSlice : Sel := Sel.slc Option.none Option.none Option.none

/-- Ellipsis handling at the top of `File._read`: more than one `Ellipsis`
raises `IndexError`; exactly one is replaced (in place) by
`len(var_shape) - len(args) + 1` full slices (a negative count inserts
nothing, as in Python list multiplication). -/
def expandEllipsis (args : List Sel) (ndim : Nat) : Except Err (List Sel) :=
  let n := args.count Sel.ellip
  if n > 1 then
    .error (.indexError "an index can only have a single ellipsis (\x27...\x27)")
  else if n = 1 then
    let i := args.indexOf Sel.ellip
    .ok (args.take i ++
      List.replicate ((ndim : Int) - (args.length : Int) + 1).toNat fullSlice ++
      args.drop (i + 1))
  else
    .ok args

/-- One iteration of the selector loop of `File._read`, for the pair
`(arg, length)`: returns the engine selection `(start, count)` contributed to
`sel` together with the entries contributed to `arr_shape` (one for a full
range or slice, none for an integer index).  `None` (including the
`zip_longest` padding) selects the full dimension; a slice is resolved with
`slice.indices` and must satisfy `start < stop` and `step == 1` (`assert`);
an integer has `length` added once if negative; any other object (only
`Ellipsis` is left in our selector type) raises `NotImplementedError`. -/
def applySel (arg : Sel) (length : Int) : Except Err ((Int × Int) × List Int) :=
  match arg with
  | Sel.none => .ok ((0, length), [length])
  | Sel.slc a b c =>
    match sliceIndices a b c length with
    | .error e => .error e
    | .ok (start, stop, step) =>
      if start < stop then
        if step = 1 then .ok ((start, stop - start), [stop - start])
        else .error .assertionError
      else .error .assertionError
  | Sel.int i =>
    let idx := if i < 0 then i + length else i
    .ok ((idx, 1), [])
  | Sel.ellip => .error .notImplementedError

/-- The selector loop of `File._read`, accumulating `sel` and `arr_shape`
left to right and stopping at the first failing selector. -/
def selLoop : List (Sel × Int) → Except Err (List (Int × Int) × List Int)
  | [] => .ok ([], [])
  | (arg, length) :: rest =>
    match applySel arg length with
    | .error e => .error e
    | .ok (s, dims) =>
      match selLoop rest with
      | .error e => .error e
      | .ok (sel, shape) => .ok (s :: sel, dims ++ shape)

/-- The full shape `var_shape = (self._steps(), *var.Shape())` of a variable:
the step count prepended to the declared data shape. -/
def varShapeFull (nsteps : Nat) (varShape : List Nat) : List Int :=
  (nsteps : Int) :: varShape.map Int.ofNat

/-- The pure index-translation part of `File._read`: ellipsis expansion, the
`assert len(args) <= len(var_shape)` check, then the selector loop over
`zip_longest(args, var_shape)` (the shorter `args` is padded with `None`).
Returns the selection list `sel` and the result shape `arr_shape`. -/
def translateIndex (nsteps : Nat) (varShape : List Nat) (index : List Sel) :
    Except Err (List (Int × Int) × List Int) :=
  let var_shape := varShapeFull nsteps varShape
  match expandEllipsis index var_shape.length with
  | .error e => .error e
  | .ok args =>
    if args.length ≤ var_shape.length then
      selLoop ((args ++ List.replicate (var_shape.length - args.length) Sel.none).zip
        var_shape)
    else .error .assertionError

/-- A call issued to the external engine by `File._read`. -/
inductive EngineCall where
  | setStepSelection (start count : Int)
  | setSelection (starts counts : List Int)
  | get (shape : List Int)
  deriving Repr, DecidableEq

/-- The file state `File._read` consults: the open mode, whether a step is
active, the current step, the engine step count, and the inquired variable's
declared shape. -/
structure ReadEnv where
  mode : String
  in_step : Bool
  current_step : Int
  nsteps : Nat
  varShape : List Nat
  deriving Repr, DecidableEq

/-- The body of `File._read` after variable inquiry: translate the index,
then in `"rra"` mode issue `SetStepSelection(sel[0])`, in any other
(streaming) mode require the step selection to be exactly
`(current_step, 1)` inside an active step; issue `SetSelection` on the data
dimensions when `len(sel) > 1`, and finally `Get` into a buffer of shape
`arr_shape`.  Returns the engine calls issued, in order, paired with the
result (the shape of the returned array) or the exception raised. -/
def File._read (env : ReadEnv) (index : List Sel) :
    List EngineCall × Except Err (List Int) :=
  match translateIndex env.nsteps env.varShape index with
  | .error e => ([], .error e)
  | .ok (sel, arr_shape) =>
    let sel0 := sel.headD (0, 0)
    if env.mode = "rra" then
      let calls := [EngineCall.setStepSelection sel0.1 sel0.2]
      let calls := if 1 < sel.length then
          calls ++ [EngineCall.setSelection (sel.tail.map Prod.fst)
            (sel.tail.map Prod.snd)]
        else calls
      (calls ++ [EngineCall.get arr_shape], .ok arr_shape)
    else
      if ¬ env.in_step ∨ sel0 ≠ (env.current_step, 1) then
        ([], .error (.indexError "Trying to access non-current step in streaming mode"))
      else
        let calls := if 1 < sel.length then
            [EngineCall.setSelection (sel.tail.map Prod.fst)
              (sel.tail.map Prod.snd)]
          else []
        (calls ++ [EngineCall.get arr_shape], .ok arr_shape)

/-- Modelled from the spec: the length of the Python range
`range(start, stop, step)` (for a nonzero step), which is the number of
elements a numpy slice with these resolved bounds selects. -/
def rangeLen (start stop step : Int) : Int :=
  if step > 0 then max 0 ((stop - start + step - 1) / step)
  else max 0 ((start - stop - step - 1) / (-step))

/-- Modelled from the spec: whether a selector consumes an axis of the
indexed array under numpy basic-indexing semantics (`None` inserts a new
axis and an ellipsis is expanded away, so neither consumes one). -/
def numpyConsumes : Sel → Bool
  | Sel.none => false
  | Sel.ellip => false
  | _ => true

/-- Modelled from the spec: the shape numpy basic indexing produces for an
ellipsis-free selector list applied to an array of shape `dims`: `None`
inserts a new axis of length 1, an in-bounds integer drops its axis, a slice
keeps its axis with the selected length, unconsumed trailing axes remain,
and out-of-bounds integers or leftover selectors are invalid. -/
def numpyWalk : List Sel → List Int → Option (List Int)
  | [], dims => Option.some dims
  | Sel.none :: rest, dims => (numpyWalk rest dims).map (fun s => 1 :: s)
  | Sel.int i :: rest, d :: dims =>
    if -d ≤ i ∧ i < d then numpyWalk rest dims else Option.none
  | Sel.int _ :: _, [] => Option.none
  | Sel.slc a b c :: rest, d :: dims =>
    match sliceIndices a b c d with
    | .error _ => Option.none
    | .ok (start, stop, step) =>
      (numpyWalk rest dims).map (fun s => rangeLen start stop step :: s)
  | Sel.slc _ _ _ :: _, [] => Option.none
  | Sel.ellip :: _, _ => Option.none

/-- Modelled from the spec: the shape numpy basic indexing of an array of
shape `dims` with the index expression `idx` produces (`Option.none` when
numpy rejects the expression): at most one ellipsis, which expands to the
full slices needed to make the axis-consuming selectors cover `dims`. -/
def numpyShape (dims : List Int) (idx : List Sel) : Option (List Int) :=
  let n := idx.count Sel.ellip
  if n > 1 then Option.none
  else if n = 1 then
    let i := idx.indexOf Sel.ellip
    let consuming := (idx.filter numpyConsumes).length
    if dims.length < consuming then Option.none
    else
      numpyWalk (idx.take i ++
        List.replicate (dims.length - consuming) fullSlice ++ idx.drop (i + 1)) dims
  else numpyWalk idx dims

/-- A `DefineAttribute` call issued to the engine by `File._write_attribute`
(the attribute value in this model is an integer array). -/
inductive AttrCall where
  | defineAttribute (name : String) (data : List Int) (varName : String)
  deriving Repr, DecidableEq

/-- The engine-side attribute name: `f"{variable}/{name}"` when a variable
scope is given, else `name` (matching `File._read_attribute`). -/
def attrName (varName : Option String) (name : String) : String :=
  match varName with
  | Option.some v => v ++ "/" ++ name
  | Option.none => name

/-- The body of `File._read_attribute` over an attribute store mapping
engine-side attribute names to (integer array) values: inquire the scoped
name and raise `KeyError` when it is absent. -/
def File._read_attribute (store : List (String × List Int)) (name : String)
    (varName : Option String) : Except Err (List Int) :=
  match store.lookup (attrName varName name) with
  | Option.none => .error (.keyError "Attribute not found")
  | Option.some d => .ok d

/-- The body of `File._write_attribute`, returning the `DefineAttribute`
calls issued: read the existing attribute (a `KeyError` is swallowed), and
return without defining anything when the existing value equals the new one;
otherwise define the attribute with the new value, with the variable scope
defaulting to `""`.  Attribute values are modelled as integer arrays, for
which `np.array_equal(attr_data, data)` is elementwise equality. -/
def File._write_attribute (store : List (String × List Int)) (name : String)
    (data : List Int) (varName : Option String) : List AttrCall :=
  match File._read_attribute store name varName with
  | .ok attr_data =>
    if attr_data = data then []
    else [AttrCall.defineAttribute name data (varName.getD "")]
  | .error _ => [AttrCall.defineAttribute name data (varName.getD "")]

/-- A call issued to the engine by `File._write`. -/
inductive WriteCall where
  | defineVariable (name : String) (shape : List Nat)
  | put (name : String) (shape : List Nat)
  deriving Repr, DecidableEq

/-- The body of `File._write` over a store of declared variables
(name to declared shape): writing outside an active step raises
`ValueError`; an unknown variable is first defined with the shape of the
written data; `assert tuple(var.Shape()) == data.shape` then rejects any
shape change, and the data is `Put` to the engine.  Returns the updated
variable store and the engine calls issued. -/
def File._write (vars : List (String × List Nat)) (in_step : Bool)
    (name : String) (shape : List Nat) :
    Except Err (List (String × List Nat) × List WriteCall) :=
  if ¬ in_step then
    .error (.valueError "Data needs to be written inside an active step.")
  else
    let found := vars.lookup name
    let vars' := match found with
      | Option.none => (name, shape) :: vars
      | Option.some _ => vars
    let defCalls : List WriteCall := match found with
      | Option.none => [WriteCall.defineVariable name shape]
      | Option.some _ => []
    match vars'.lookup name with
    | Option.some s =>
      if s = shape then .ok (vars', defCalls ++ [WriteCall.put name shape])
      else .error .assertionError
    | Option.none => .error .assertionError

/-- A step status returned by the engine's `BeginStep`. -/
inductive StepStatus where
  | OK
  | EndOfStream
  | OtherError
  deriving Repr, DecidableEq

/-- The file state used by the step lifecycle: mode, current step, active
step flag, engine step count (for `"rra"` mode), and for streaming modes a
script of the statuses the external engine will answer to `BeginStep`
together with the step counter its `CurrentStep` reports. -/
structure FileState where
  mode : String
  current_step : Int
  in_step : Bool
  nsteps : Nat
  statuses : List StepStatus
  engine_step : Int
  deriving Repr, DecidableEq

/-- The body of `File._begin_step`: asserts no step is active; in `"rra"`
mode raises `EOFError` past the last step and otherwise increments
`_current_step`; in streaming modes calls the engine's `BeginStep` (the next
scripted status, an exhausted script acting as end of stream), raising
`EOFError` on `EndOfStream` and `RuntimeError` on any other non-OK status,
and on `OK` takes `_current_step` from the engine's `CurrentStep`.  Returns
the new state and the exception raised, if any. -/
def File._begin_step (s : FileState) : FileState × Option Err :=
  if s.in_step then (s, Option.some .assertionError)
  else if s.mode = "rra" then
    if s.current_step ≥ (s.nsteps : Int) - 1 then (s, Option.some .eofError)
    else ({ s with current_step := s.current_step + 1, in_step := true },
      Option.none)
  else
    match s.statuses with
    | [] => (s, Option.some .eofError)
    | st :: rest =>
      match st with
      | StepStatus.EndOfStream => ({ s with statuses := rest }, Option.some .eofError)
      | StepStatus.OtherError => ({ s with statuses := rest }, Option.some .runtimeError)
      | StepStatus.OK =>
        ({ s with
            statuses := rest
            current_step := s.engine_step
            engine_step := s.engine_step + 1
            in_step := true }, Option.none)

/-- The body of `File._end_step`: asserts a step is active and clears the
active-step flag (in streaming modes the engine's `EndStep` is also called,
which changes no modelled state). -/
def File._end_step (s : FileState) : FileState × Option Err :=
  if ¬ s.in_step then (s, Option.some .assertionError)
  else ({ s with in_step := false }, Option.none)

/-- The generator `StepsProxy.__iter__`, driven by a consumer that takes at
most `k` steps: each round calls `File._begin_step`, breaking cleanly when
it raises `EOFError` and propagating any other exception; a yielded step is
recorded by its step index, after which `File._end_step` runs — either
normally when the consumer continues, or from the generator's `finally`
clause when the consumer breaks while the step is active (both leave the
same state).  Returns the yielded step indices and the final state. -/
def StepsProxy.iter (s : FileState) : Nat → Except Err (List Int × FileState)
  | 0 => .ok ([], s)
  | Nat.succ k =>
    match File._begin_step s with
    | (s1, Option.some Err.eofError) => .ok ([], s1)
    | (_, Option.some e) => .error e
    | (s1, Option.none) =>
      match StepsProxy.iter (File._end_step s1).1 k with
      | .error e => .error e
      | .ok (rest, sf) => .ok (s1.current_step :: rest, sf)

/-- The body of `StepsProxy.__getitem__`: selecting a step by index raises
`IndexError` outside `"rra"` mode and for an index outside
`[0, len(self))`; otherwise the step with that index is returned. -/
def StepsProxy.getitem (mode : String) (nsteps : Nat) (index : Int) :
    Except Err Int :=
  if mode ≠ "rra" then
    .error (.indexError "Selecting steps by index is only supported in \x27rra\x27 mode")
  else if index < 0 ∨ index ≥ (nsteps : Int) then
    .error (.indexError "Index out of range")
  else .ok index

/-- The list `a, a+1, ..., a+n-1` of consecutive step indices. -/
def rangeFrom (a : Int) (n : Nat) : List Int :=
  (List.range n).map (fun i => a + Int.ofNat i)

/-- Whether an exception is a Python `IndexError`, the exception class the
code uses where the spec speaks of `InvalidIndexError` and
`StepOrderError`. -/
def Err.isIndexError : Err → Bool
  | .indexError _ => true
  | _ => false

/-- C10: selecting a step by index via the steps proxy fails with an
index-out-of-range `IndexError` for every index that is negative or at least
the step count — negative indices are not interpreted relative to the end,
unlike integer selectors inside variable index expressions, which add the
dimension length — and any access in a mode other than `"rra"` fails
regardless of the index. -/
theorem C10_steps_getitem (mode : String) (nsteps : Nat) (i : Int) :
    (mode ≠ "rra" →
      StepsProxy.getitem mode nsteps i =
        .error (.indexError "Selecting steps by index is only supported in \x27rra\x27 mode"))
    ∧ (i < 0 ∨ i ≥ (nsteps : Int) →
      StepsProxy.getitem "rra" nsteps i = .error (.indexError "Index out of range"))
    ∧ (0 ≤ i → i < (nsteps : Int) → StepsProxy.getitem "rra" nsteps i = .ok i)
    ∧ (i < 0 → applySel (Sel.int i) (nsteps : Int) = .ok ((i + nsteps, 1), [])) := by
  refine ⟨fun h => ?_, fun h => ?_, fun h1 h2 => ?_, fun h => ?_⟩
  · simp [StepsProxy.getitem, h]
  · simp [StepsProxy.getitem]
    omega
  · simp [StepsProxy.getitem]
    omega
  · simp [applySel, h]

/-- C10 witness: concrete instances of the three failure modes and the
in-range success. -/
theorem C10_witness :
    StepsProxy.getitem "r" 5 0 =
      .error (.indexError "Selecting steps by index is only supported in \x27rra\x27 mode")
    ∧ StepsProxy.getitem "rra" 5 (-1) = .error (.indexError "Index out of range")
    ∧ StepsProxy.getitem "rra" 5 5 = .error (.indexError "Index out of range")
    ∧ StepsProxy.getitem "rra" 5 4 = .ok 4 :=
  ⟨(C10_steps_getitem "r" 5 0).1 (by decide),
   (C10_steps_getitem "rra" 5 (-1)).2.1 (by left; decide),
   (C10_steps_getitem "rra" 5 5).2.1 (by right; decide),
   (C10_steps_getitem "rra" 5 4).2.2.1 (by decide) (by decide)⟩

/-- C9: with a step active, the first write of an undeclared variable
defines it with the shape of the written buffer (and puts the data), a
subsequent write whose data shape differs from the declared shape fails
(assertion), and a write never changes the declared shape of an existing
variable. -/
theorem C9_write_shape_immutable (vars : List (String × List Nat))
    (name : String) (shape s : List Nat) :
    (vars.lookup name = Option.none →
      File._write vars true name shape =
        .ok ((name, shape) :: vars,
          [WriteCall.defineVariable name shape, WriteCall.put name shape]))
    ∧ (vars.lookup name = Option.some s → s ≠ shape →
      File._write vars true name shape = .error .assertionError)
    ∧ (vars.lookup name = Option.some s →
      ∀ vars2 calls, File._write vars true name shape = .ok (vars2, calls) →
        vars2.lookup name = Option.some s ∧ calls = [WriteCall.put name shape]) := by
  refine ⟨fun h => ?_, fun h hne => ?_, fun h vars2 calls hw => ?_⟩
  · simp [File._write, h, List.lookup]
  · simp [File._write, h, hne]
  · rw [File._write] at hw
    simp [h] at hw
    by_cases hse : s = shape
    · subst hse
      simp at hw
      exact ⟨hw.1 ▸ h, hw.2.symm⟩
    · simp [hse] at hw

/-- C9 witness: a fresh variable is defined with shape `[3]`, a matching
rewrite only puts, and a mismatched rewrite fails. -/
theorem C9_witness :
    File._write [] true "v" [3] =
      .ok ([("v", [3])], [WriteCall.defineVariable "v" [3], WriteCall.put "v" [3]])
    ∧ File._write [("v", [3])] true "v" [4] = .error .assertionError
    ∧ ([("v", [3])].lookup "v" = Option.some [3] ∧
      [WriteCall.put "v" [3]] = [WriteCall.put "v" [3]]) :=
  ⟨(C9_write_shape_immutable [] "v" [3] [3]).1 (by rfl),
   (C9_write_shape_immutable [("v", [3])] "v" [4] [3]).2.1 (by rfl) (by decide),
   (C9_write_shape_immutable [("v", [3])] "v" [3] [3]).2.2 (by rfl)
     [("v", [3])] [WriteCall.put "v" [3]] (by rfl)⟩

/-- C7: writing an attribute whose stored value equals the new value issues
no `DefineAttribute` call; when the attribute is absent or its value
differs, exactly one `DefineAttribute` with the new value is issued. -/
theorem C7_attribute_write_idempotent (store : List (String × List Int))
    (name : String) (data d : List Int) (varName : Option String) :
    (store.lookup (attrName varName name) = Option.some data →
      File._write_attribute store name data varName = [])
    ∧ (store.lookup (attrName varName name) = Option.some d → d ≠ data →
      File._write_attribute store name data varName =
        [AttrCall.defineAttribute name data (varName.getD "")])
    ∧ (store.lookup (attrName varName name) = Option.none →
      File._write_attribute store name data varName =
        [AttrCall.defineAttribute name data (varName.getD "")]) := by
  refine ⟨fun h => ?_, fun h hne => ?_, fun h => ?_⟩
  · simp [File._write_attribute, File._read_attribute, h]
  · simp [File._write_attribute, File._read_attribute, h, hne]
  · simp [File._write_attribute, File._read_attribute, h]

/-- C7 witness: rewriting `a = [1, 2]` with an equal value is a no-op;
a different value and an absent attribute are defined. -/
theorem C7_witness :
    File._write_attribute [("a", [1, 2])] "a" [1, 2] Option.none = []
    ∧ File._write_attribute [("a", [1, 2])] "a" [1, 3] Option.none =
      [AttrCall.defineAttribute "a" [1, 3] ""]
    ∧ File._write_attribute [("a", [1, 2])] "b" [7] (Option.some "v") =
      [AttrCall.defineAttribute "b" [7] "v"] :=
  ⟨(C7_attribute_write_idempotent [("a", [1, 2])] "a" [1, 2] [1, 2] Option.none).1 (by rfl),
   (C7_attribute_write_idempotent [("a", [1, 2])] "a" [1, 3] [1, 2] Option.none).2.1
     (by rfl) (by decide),
   (C7_attribute_write_idempotent [("a", [1, 2])] "b" [7] [] (Option.some "v")).2.2 (by rfl)⟩

/-- C2 (amended): more than one ellipsis in an index expression makes the
read fail with the `IndexError` message
"an index can only have a single ellipsis (\x27...\x27)"; with exactly one
ellipsis (and no more selectors than the full dimensionality plus the
ellipsis itself) the ellipsis is replaced in place by as many full-range
selectors as needed so the selector count equals the full dimensionality. -/
theorem C2_ellipsis_handling (env : ReadEnv) (index : List Sel) (ndim : Nat) :
    (2 ≤ index.count Sel.ellip →
      File._read env index =
        ([], .error (.indexError "an index can only have a single ellipsis (\x27...\x27)")))
    ∧ (index.count Sel.ellip = 1 → index.length ≤ ndim + 1 →
      expandEllipsis index ndim =
        .ok (index.take (index.indexOf Sel.ellip) ++
          List.replicate (ndim + 1 - index.length) fullSlice ++
          index.drop (index.indexOf Sel.ellip + 1))
      ∧ ∀ args, expandEllipsis index ndim = .ok args → args.length = ndim) := by
  constructor
  · intro h
    have h1 : index.count Sel.ellip > 1 := h
    simp [File._read, translateIndex, expandEllipsis, h1]
  · intro h1 h2
    have hto : ((ndim : Int) - (index.length : Int) + 1).toNat =
        ndim + 1 - index.length := by omega
    have hexp : expandEllipsis index ndim =
        .ok (index.take (index.indexOf Sel.ellip) ++
          List.replicate (ndim + 1 - index.length) fullSlice ++
          index.drop (index.indexOf Sel.ellip + 1)) := by
      simp [expandEllipsis, h1, hto]
    refine ⟨hexp, fun args ha => ?_⟩
    rw [hexp] at ha
    have hmem : Sel.ellip ∈ index :=
      List.count_pos_iff.mp (by omega)
    have hi : index.indexOf Sel.ellip < index.length :=
      List.indexOf_lt_length.mpr hmem
    have hargs : args = index.take (index.indexOf Sel.ellip) ++
        List.replicate (ndim + 1 - index.length) fullSlice ++
        index.drop (index.indexOf Sel.ellip + 1) := (Except.ok.inj ha).symm
    subst hargs
    simp [List.length_take, List.length_drop]
    omega

/-- C2 counterexample: the message of the `IndexError` raised for a double
ellipsis is "an index can only have a single ellipsis (\x27...\x27)", which is not
the string "an index can only have a single ellipsis" stated by the claim. -/
theorem C2_counterexample :
    (File._read ⟨"rra", false, -1, 2, [5]⟩ [Sel.ellip, Sel.ellip]).2 =
      .error (.indexError "an index can only have a single ellipsis (\x27...\x27)")
    ∧ "an index can only have a single ellipsis (\x27...\x27)" ≠
      "an index can only have a single ellipsis" :=
  ⟨rfl, by decide⟩

/-- C2 witness: the double-ellipsis rejection and the single-ellipsis
expansion at concrete inputs (full dimensionality 3). -/
theorem C2_witness :
    File._read ⟨"rra", false, -1, 2, [4, 5]⟩ [Sel.ellip, Sel.ellip] =
      ([], .error (.indexError "an index can only have a single ellipsis (\x27...\x27)"))
    ∧ expandEllipsis [Sel.int 0, Sel.ellip] 3 =
      .ok [Sel.int 0, fullSlice, fullSlice]
    ∧ ∀ args, expandEllipsis [Sel.int 0, Sel.ellip] 3 = .ok args →
        args.length = 3 := by
  refine ⟨(C2_ellipsis_handling ⟨"rra", false, -1, 2, [4, 5]⟩ [Sel.ellip, Sel.ellip] 0).1
    (by decide), ?_, ?_⟩
  · have h := (C2_ellipsis_handling ⟨"rra", false, -1, 2, [4, 5]⟩ [Sel.int 0, Sel.ellip] 3).2
      (by decide) (by decide)
    exact h.1
  · have h := (C2_ellipsis_handling ⟨"rra", false, -1, 2, [4, 5]⟩ [Sel.int 0, Sel.ellip] 3).2
      (by decide) (by decide)
    exact h.2

/-- C3 (amended): an index expression whose selector count after ellipsis
expansion exceeds the full dimensionality makes the read fail — with an
`AssertionError` (from `assert len(args) <= len(var_shape)`), not with an
`IndexError`. -/
theorem C3_too_many_selectors_fail (env : ReadEnv) (index args : List Sel)
    (hex : expandEllipsis index (varShapeFull env.nsteps env.varShape).length =
      .ok args)
    (hlen : (varShapeFull env.nsteps env.varShape).length < args.length) :
    File._read env index = ([], .error .assertionError) := by
  have ht : translateIndex env.nsteps env.varShape index = .error .assertionError := by
    simp [translateIndex, hex, Nat.not_le.mpr hlen]
  simp [File._read, ht]

/-- C3 counterexample: two integer selectors on a scalar variable (full
dimensionality 1) fail with `AssertionError`, which is not an
`IndexError`. -/
theorem C3_counterexample :
    File._read ⟨"rra", false, -1, 2, []⟩ [Sel.int 0, Sel.int 0] =
      ([], .error .assertionError)
    ∧ Err.assertionError.isIndexError = false :=
  ⟨rfl, rfl⟩

/-- C3 witness: the amended failure at a concrete over-long index. -/
theorem C3_witness :
    File._read ⟨"rra", false, -1, 2, []⟩ [Sel.int 0, Sel.int 0] =
      ([], .error .assertionError) :=
  C3_too_many_selectors_fail ⟨"rra", false, -1, 2, []⟩ [Sel.int 0, Sel.int 0]
    [Sel.int 0, Sel.int 0] (by rfl) (by decide)

/-- C4 (amended): a slice selector is resolved against the dimension length
with Python `slice.indices` clamping; a slice whose resolved step is not 1
fails with an `AssertionError` (not a `NotImplementedError`-class error),
a slice whose resolved start is not strictly below its resolved stop fails
with an `AssertionError`, and an accepted slice contributes the selection
`(start, stop - start)` and a result dimension of size `stop - start`. -/
theorem C4_slice_semantics (a b c : Option Int) (length start stop step : Int)
    (h : sliceIndices a b c length = .ok (start, stop, step)) :
    (step ≠ 1 → applySel (Sel.slc a b c) length = .error .assertionError)
    ∧ (¬ start < stop → applySel (Sel.slc a b c) length = .error .assertionError)
    ∧ (step = 1 → start < stop →
      applySel (Sel.slc a b c) length =
        .ok ((start, stop - start), [stop - start])) := by
  refine ⟨fun hs => ?_, fun hlt => ?_, fun hs hlt => ?_⟩
  · simp [applySel, h, hs]
  · simp [applySel, h, hlt]
  · simp [applySel, h, hs, hlt]

/-- C4 counterexample: `slice(None, None, 2)` on a dimension of length 4
resolves to `(0, 4, 2)` and fails with `AssertionError`, which is not
`NotImplementedError`. -/
theorem C4_counterexample :
    sliceIndices Option.none Option.none (Option.some 2) 4 = .ok (0, 4, 2)
    ∧ applySel (Sel.slc Option.none Option.none (Option.some 2)) 4 =
      .error .assertionError
    ∧ Err.assertionError ≠ Err.notImplementedError :=
  ⟨rfl, rfl, by decide⟩

/-- C4 witness: the three branches at concrete slices on a length-4
dimension: step 2 fails, an empty range fails, and `slice(1, 3)` selects
`(1, 2)` with result dimension 2. -/
theorem C4_witness :
    applySel (Sel.slc Option.none Option.none (Option.some 2)) 4 =
      .error .assertionError
    ∧ applySel (Sel.slc (Option.some 3) (Option.some 3) Option.none) 4 =
      .error .assertionError
    ∧ applySel (Sel.slc (Option.some 1) (Option.some 3) Option.none) 4 =
      .ok ((1, 2), [2]) := by
  refine ⟨(C4_slice_semantics Option.none Option.none (Option.some 2) 4 0 4 2
    (by rfl)).1 (by decide), ?_, ?_⟩
  · exact (C4_slice_semantics (Option.some 3) (Option.some 3) Option.none 4 3 3 1
      (by rfl)).2.1 (by decide)
  · have h := (C4_slice_semantics (Option.some 1) (Option.some 3) Option.none 4 1 3 1
      (by rfl)).2.2 (by rfl) (by decide)
    simpa using h

/-- C5: in streaming mode `"r"`, a read whose resolved step selection is not
exactly `(current step, 1)` — including any read with no active step — fails
with the "non-current step" `IndexError` before any engine call, and a read
whose step selection is exactly the current step succeeds; in `"rra"` mode
the resolved step selection, whatever it is, is issued to the engine as a
`SetStepSelection`. -/
theorem C5_step_mode_policy (env : ReadEnv) (index : List Sel)
    (sel : List (Int × Int)) (arr : List Int)
    (ht : translateIndex env.nsteps env.varShape index = .ok (sel, arr)) :
    (env.mode = "r" → (env.in_step = false ∨ sel.headD (0, 0) ≠ (env.current_step, 1)) →
      File._read env index =
        ([], .error (.indexError "Trying to access non-current step in streaming mode")))
    ∧ (env.mode = "r" → env.in_step = true → sel.headD (0, 0) = (env.current_step, 1) →
      (File._read env index).2 = .ok arr)
    ∧ (env.mode = "rra" →
      EngineCall.setStepSelection (sel.headD (0, 0)).1 (sel.headD (0, 0)).2 ∈
        (File._read env index).1) := by
  refine ⟨fun hm hbad => ?_, fun hm hin hsel => ?_, fun hm => ?_⟩
  · have hmr : ¬ env.mode = "rra" := by rw [hm]; decide
    have hcond : ¬ env.in_step = true ∨ sel.headD (0, 0) ≠ (env.current_step, 1) := by
      rcases hbad with h | h
      · exact Or.inl (by simp [h])
      · exact Or.inr h
    simp only [File._read, ht, if_neg hmr]
    rw [if_pos]
    exact hcond
  · have hmr : ¬ env.mode = "rra" := by rw [hm]; decide
    simp only [File._read, ht, if_neg hmr]
    split
    · rename_i hcond
      exfalso
      rcases hcond with hc | hc
      · exact hc hin
      · exact hc hsel
    · rfl
  · simp only [File._read, ht, if_pos hm]
    by_cases hlen : 1 < sel.length <;> simp [hlen]

/-- C5 witness: on a 2-step file holding a 1-D variable of length 5,
reading step 1 in mode `"r"` fails while step 0 is active and succeeds
while step 1 is active, and in `"rra"` mode the step selection `(1, 1)` is
issued to the engine. -/
theorem C5_witness :
    File._read ⟨"r", true, 0, 2, [5]⟩ [Sel.int 1] =
      ([], .error (.indexError "Trying to access non-current step in streaming mode"))
    ∧ (File._read ⟨"r", true, 1, 2, [5]⟩ [Sel.int 1]).2 = .ok [5]
    ∧ EngineCall.setStepSelection 1 1 ∈
      (File._read ⟨"rra", true, 1, 2, [5]⟩ [Sel.int 1]).1 :=
  ⟨(C5_step_mode_policy ⟨"r", true, 0, 2, [5]⟩ [Sel.int 1] [(1, 1), (0, 5)] [5]
      (by rfl)).1 rfl (Or.inr (by decide)),
   (C5_step_mode_policy ⟨"r", true, 1, 2, [5]⟩ [Sel.int 1] [(1, 1), (0, 5)] [5]
      (by rfl)).2.1 rfl rfl (by decide),
   (C5_step_mode_policy ⟨"rra", true, 1, 2, [5]⟩ [Sel.int 1] [(1, 1), (0, 5)] [5]
      (by rfl)).2.2 rfl⟩

/-- C6: whenever `File._read` raises (multiple ellipses, too many selectors,
a bad slice, or a non-current step in streaming mode), no engine call at all
has been issued — in particular neither selection call nor `Get` — and a
`Get` for a buffer shape appears among the issued calls only when the read
returns an array of exactly that shape. -/
theorem C6_no_engine_calls_on_failure (env : ReadEnv) (index : List Sel) :
    (∀ e, (File._read env index).2 = .error e → (File._read env index).1 = [])
    ∧ (∀ shp, EngineCall.get shp ∈ (File._read env index).1 →
        (File._read env index).2 = .ok shp) := by
  rcases ht : translateIndex env.nsteps env.varShape index with e0 | ⟨sel, arr⟩
  · refine ⟨fun e _ => ?_, fun shp hmem => ?_⟩
    · simp [File._read, ht]
    · simp [File._read, ht] at hmem
  · by_cases hm : env.mode = "rra"
    · refine ⟨fun e he => ?_, fun shp hmem => ?_⟩
      · exfalso
        simp only [File._read, ht, if_pos hm] at he
        simp at he
      · simp only [File._read, ht, if_pos hm] at hmem ⊢
        split at hmem <;> simp at hmem <;> simp [hmem]
    · refine ⟨fun e he => ?_, fun shp hmem => ?_⟩
      · simp only [File._read, ht, if_neg hm]
        split
        · rfl
        · rename_i hcond
          exfalso
          simp only [File._read, ht, if_neg hm] at he
          rw [if_neg hcond] at he
          simp at he
      · simp only [File._read, ht, if_neg hm] at hmem ⊢
        split at hmem
        · simp at hmem
        · rename_i hcond
          rw [if_neg hcond]
          split at hmem <;> simp at hmem <;> simp [hmem]

/-- C6 witness: a failing read (double ellipsis) issues no engine call, and
for a succeeding read the `Get` shape is the returned shape. -/
theorem C6_witness :
    (File._read ⟨"rra", false, -1, 2, [5]⟩ [Sel.ellip, Sel.ellip]).1 = []
    ∧ (File._read ⟨"rra", false, -1, 2, [5]⟩ [Sel.int 0]).2 = .ok [5] :=
  ⟨(C6_no_engine_calls_on_failure ⟨"rra", false, -1, 2, [5]⟩ [Sel.ellip, Sel.ellip]).1
      (.indexError "an index can only have a single ellipsis (\x27...\x27)") (by rfl),
   (C6_no_engine_calls_on_failure ⟨"rra", false, -1, 2, [5]⟩ [Sel.int 0]).2
      [5] (by decide)⟩

theorem rangeFrom_length (a : Int) (n : Nat) : (rangeFrom a n).length = n := by
  unfold rangeFrom
  rw [List.length_map, List.length_range]

theorem rangeFrom_succ (a : Int) (n : Nat) :
    rangeFrom a (n + 1) = a :: rangeFrom (a + 1) n := by
  unfold rangeFrom
  rw [List.range_succ_eq_map, List.map_cons, List.map_map]
  simp only [Int.ofNat_eq_coe, Nat.cast_zero, add_zero]
  congr 1
  apply List.map_congr_left
  intro i _
  simp only [Function.comp_apply]
  push_cast
  ring

theorem rangeFrom_append (n1 : Nat) : ∀ (a : Int) (n2 : Nat),
    rangeFrom a n1 ++ rangeFrom (a + (n1 : Int)) n2 = rangeFrom a (n1 + n2) := by
  induction n1 with
  | zero =>
    intro a n2
    simp [rangeFrom]
  | succ k ih =>
    intro a n2
    rw [rangeFrom_succ, List.cons_append]
    have h1 : a + ((k + 1 : Nat) : Int) = (a + 1) + (k : Int) := by push_cast; ring
    rw [h1, ih (a + 1) n2, show k + 1 + n2 = (k + n2) + 1 from by omega,
      rangeFrom_succ]

/-- In `"rra"` mode with no active step, iterating with a consumer that takes
at most `k` steps yields the consecutive step indices after the current one,
bounded by the remaining step count, and leaves the file positioned after
the last yielded step with no step active. -/
theorem iter_rra (k : Nat) :
    ∀ (cs : Int) (N : Nat) (sts : List StepStatus) (es : Int),
    StepsProxy.iter ⟨"rra", cs, false, N, sts, es⟩ k =
      .ok (rangeFrom (cs + 1) (min k ((N : Int) - 1 - cs).toNat),
        ⟨"rra", cs + ((min k ((N : Int) - 1 - cs).toNat : Nat) : Int), false, N, sts, es⟩) := by
  induction k with
  | zero =>
    intro cs N sts es
    simp [StepsProxy.iter, rangeFrom]
  | succ k ih =>
    intro cs N sts es
    by_cases h : cs ≥ (N : Int) - 1
    · have h0 : ((N : Int) - 1 - cs).toNat = 0 := by omega
      have hbegin : File._begin_step ⟨"rra", cs, false, N, sts, es⟩ =
          (⟨"rra", cs, false, N, sts, es⟩, Option.some .eofError) := by
        simp [File._begin_step, h]
      simp [StepsProxy.iter, hbegin, h0, rangeFrom]
    · have hbegin : File._begin_step ⟨"rra", cs, false, N, sts, es⟩ =
          (⟨"rra", cs + 1, true, N, sts, es⟩, Option.none) := by
        simp [File._begin_step, h]
      have hend : (File._end_step ⟨"rra", cs + 1, true, N, sts, es⟩).1 =
          ⟨"rra", cs + 1, false, N, sts, es⟩ := by
        simp [File._end_step]
      simp only [StepsProxy.iter, hbegin, hend]
      rw [ih (cs + 1) N sts es]
      have hmin : min (k + 1) ((N : Int) - 1 - cs).toNat =
          (min k ((N : Int) - 1 - (cs + 1)).toNat) + 1 := by omega
      rw [hmin, rangeFrom_succ]
      have harith : cs + ((min k ((N : Int) - 1 - (cs + 1)).toNat + 1 : Nat) : Int) =
          cs + 1 + ((min k ((N : Int) - 1 - (cs + 1)).toNat : Nat) : Int) := by
        push_cast
        ring
      rw [harith]

/-- In a streaming mode, an iteration that reaches a `BeginStep` answering a
status that is neither OK nor end-of-stream propagates the resulting
`RuntimeError` out of the loop. -/
theorem iter_stream_error (m : Nat) :
    ∀ (mode : String) (cs es : Int) (N : Nat) (rest : List StepStatus) (k : Nat),
    mode ≠ "rra" → m < k →
    StepsProxy.iter ⟨mode, cs, false, N,
      List.replicate m StepStatus.OK ++ StepStatus.OtherError :: rest, es⟩ k =
      .error .runtimeError := by
  induction m with
  | zero =>
    intro mode cs es N rest k hm hk
    obtain ⟨k, rfl⟩ : ∃ j, k = j + 1 := ⟨k - 1, by omega⟩
    have hbegin : File._begin_step ⟨mode, cs, false, N,
        List.replicate 0 StepStatus.OK ++ StepStatus.OtherError :: rest, es⟩ =
        (⟨mode, cs, false, N, rest, es⟩, Option.some .runtimeError) := by
      simp [File._begin_step, hm]
    simp only [StepsProxy.iter, hbegin]
  | succ m ih =>
    intro mode cs es N rest k hm hk
    obtain ⟨k, rfl⟩ : ∃ j, k = j + 1 := ⟨k - 1, by omega⟩
    have hbegin : File._begin_step ⟨mode, cs, false, N,
        List.replicate (m + 1) StepStatus.OK ++ StepStatus.OtherError :: rest, es⟩ =
        (⟨mode, es, true, N,
          List.replicate m StepStatus.OK ++ StepStatus.OtherError :: rest, es + 1⟩,
          Option.none) := by
      simp [File._begin_step, hm, List.replicate_succ]
    have hend : (File._end_step ⟨mode, es, true, N,
        List.replicate m StepStatus.OK ++ StepStatus.OtherError :: rest, es + 1⟩).1 =
        ⟨mode, es, false, N,
          List.replicate m StepStatus.OK ++ StepStatus.OtherError :: rest, es + 1⟩ := by
      simp [File._end_step]
    simp only [StepsProxy.iter, hbegin, hend]
    rw [ih mode es (es + 1) N rest k hm (by omega)]

/-- In a streaming mode, an iteration that reaches a `BeginStep` answering
end-of-stream terminates cleanly after yielding the steps begun so far. -/
theorem iter_stream_eof (m : Nat) :
    ∀ (mode : String) (cs es : Int) (N : Nat) (rest : List StepStatus) (k : Nat),
    mode ≠ "rra" → m < k →
    ∃ ys sf, StepsProxy.iter ⟨mode, cs, false, N,
      List.replicate m StepStatus.OK ++ StepStatus.EndOfStream :: rest, es⟩ k =
      .ok (ys, sf) ∧ ys.length = m := by
  induction m with
  | zero =>
    intro mode cs es N rest k hm hk
    obtain ⟨k, rfl⟩ : ∃ j, k = j + 1 := ⟨k - 1, by omega⟩
    have hbegin : File._begin_step ⟨mode, cs, false, N,
        List.replicate 0 StepStatus.OK ++ StepStatus.EndOfStream :: rest, es⟩ =
        (⟨mode, cs, false, N, rest, es⟩, Option.some .eofError) := by
      simp [File._begin_step, hm]
    refine ⟨[], ⟨mode, cs, false, N, rest, es⟩, ?_, rfl⟩
    simp only [StepsProxy.iter, hbegin]
  | succ m ih =>
    intro mode cs es N rest k hm hk
    obtain ⟨k, rfl⟩ : ∃ j, k = j + 1 := ⟨k - 1, by omega⟩
    have hbegin : File._begin_step ⟨mode, cs, false, N,
        List.replicate (m + 1) StepStatus.OK ++ StepStatus.EndOfStream :: rest, es⟩ =
        (⟨mode, es, true, N,
          List.replicate m StepStatus.OK ++ StepStatus.EndOfStream :: rest, es + 1⟩,
          Option.none) := by
      simp [File._begin_step, hm, List.replicate_succ]
    have hend : (File._end_step ⟨mode, es, true, N,
        List.replicate m StepStatus.OK ++ StepStatus.EndOfStream :: rest, es + 1⟩).1 =
        ⟨mode, es, false, N,
          List.replicate m StepStatus.OK ++ StepStatus.EndOfStream :: rest, es + 1⟩ := by
      simp [File._end_step]
    obtain ⟨ys, sf, hiter, hlen⟩ := ih mode es (es + 1) N rest k hm (by omega)
    refine ⟨es :: ys, sf, ?_, by simp [hlen]⟩
    simp only [StepsProxy.iter, hbegin, hend]
    rw [hiter]

/-- C8: step iteration catches only the end-of-stream condition — a
`BeginStep` answering end-of-stream terminates the loop cleanly after the
steps already yielded, while any other engine failure propagates out as an
error — and in random-access mode, iteration resumed after breaking out
early (which ends the active step) continues with the step after the last
yielded one, never restarting from step 0: the two runs together always
yield consecutive step indices starting after the initial current step. -/
theorem C8_step_iteration :
    (∀ (mode : String) (cs es : Int) (N : Nat) (sts rest : List StepStatus) (m k : Nat),
      mode ≠ "rra" →
      sts = List.replicate m StepStatus.OK ++ StepStatus.OtherError :: rest →
      m < k →
      StepsProxy.iter ⟨mode, cs, false, N, sts, es⟩ k = .error .runtimeError)
    ∧ (∀ (mode : String) (cs es : Int) (N : Nat) (sts rest : List StepStatus) (m k : Nat),
      mode ≠ "rra" →
      sts = List.replicate m StepStatus.OK ++ StepStatus.EndOfStream :: rest →
      m < k →
      ∃ ys sf, StepsProxy.iter ⟨mode, cs, false, N, sts, es⟩ k = .ok (ys, sf) ∧
        ys.length = m)
    ∧ (∀ (cs es : Int) (N : Nat) (sts : List StepStatus) (j m : Nat)
        (ys ys2 : List Int) (s1 s2 : FileState),
      StepsProxy.iter ⟨"rra", cs, false, N, sts, es⟩ j = .ok (ys, s1) →
      StepsProxy.iter s1 m = .ok (ys2, s2) →
      ys ++ ys2 = rangeFrom (cs + 1) (ys.length + ys2.length)) := by
  refine ⟨?_, ?_, ?_⟩
  · intro mode cs es N sts rest m k hm hsts hk
    subst hsts
    exact iter_stream_error m mode cs es N rest k hm hk
  · intro mode cs es N sts rest m k hm hsts hk
    subst hsts
    exact iter_stream_eof m mode cs es N rest k hm hk
  · intro cs es N sts j m ys ys2 s1 s2 h1 h2
    rw [iter_rra j] at h1
    simp only [Except.ok.injEq, Prod.mk.injEq] at h1
    obtain ⟨h1a, h1b⟩ := h1
    subst h1a
    subst h1b
    rw [iter_rra m] at h2
    simp only [Except.ok.injEq, Prod.mk.injEq] at h2
    obtain ⟨h2a, h2b⟩ := h2
    subst h2a
    subst h2b
    rw [rangeFrom_length, rangeFrom_length]
    have harith : cs + ((min j ((N : Int) - 1 - cs).toNat : Nat) : Int) + 1 =
        (cs + 1) + ((min j ((N : Int) - 1 - cs).toNat : Nat) : Int) := by ring
    rw [harith]
    exact rangeFrom_append _ _ _

/-- C8 witness: a stream whose second `BeginStep` fails propagates
`RuntimeError`; a stream ending after one step terminates cleanly with one
yielded step; and on a 3-step random-access file, taking two steps and then
resuming yields the consecutive steps 0, 1, 2. -/
theorem C8_witness :
    StepsProxy.iter ⟨"r", -1, false, 0, [StepStatus.OK, StepStatus.OtherError], 7⟩ 5 =
      .error .runtimeError
    ∧ (∃ ys sf, StepsProxy.iter
        ⟨"r", -1, false, 0, [StepStatus.OK, StepStatus.EndOfStream], 7⟩ 5 =
          .ok (ys, sf) ∧ ys.length = 1)
    ∧ (([0, 1] : List Int) ++ ([2] : List Int) =
        rangeFrom (-1 + 1) (([0, 1] : List Int).length + ([2] : List Int).length)) :=
  ⟨C8_step_iteration.1 "r" (-1) 7 0 [StepStatus.OK, StepStatus.OtherError] [] 1 5
      (by decide) rfl (by decide),
   C8_step_iteration.2.1 "r" (-1) 7 0 [StepStatus.OK, StepStatus.EndOfStream] [] 1 5
      (by decide) rfl (by decide),
   C8_step_iteration.2.2 (-1) 0 3 [] 2 5 [0, 1] [2]
      ⟨"rra", 1, false, 3, [], 0⟩ ⟨"rra", 2, false, 3, [], 0⟩ rfl rfl⟩

theorem expandEllipsis_zero (args : List Sel) (ndim : Nat)
    (h0 : args.count Sel.ellip = 0) :
    expandEllipsis args ndim = .ok args := by
  simp only [expandEllipsis, h0]
  norm_num

theorem expandEllipsis_one (args : List Sel) (ndim : Nat)
    (h1 : args.count Sel.ellip = 1) :
    expandEllipsis args ndim =
      .ok (args.take (args.indexOf Sel.ellip) ++
        List.replicate ((ndim : Int) - (args.length : Int) + 1).toNat fullSlice ++
        args.drop (args.indexOf Sel.ellip + 1)) := by
  simp only [expandEllipsis, h1]
  norm_num

theorem numpyShape_zero (dims : List Int) (idx : List Sel)
    (h0 : idx.count Sel.ellip = 0) :
    numpyShape dims idx = numpyWalk idx dims := by
  simp only [numpyShape, h0]
  norm_num

theorem numpyShape_one (dims : List Int) (idx : List Sel)
    (h1 : idx.count Sel.ellip = 1)
    (hcons : (idx.filter numpyConsumes).length ≤ dims.length) :
    numpyShape dims idx =
      numpyWalk (idx.take (idx.indexOf Sel.ellip) ++
        List.replicate (dims.length - (idx.filter numpyConsumes).length) fullSlice ++
        idx.drop (idx.indexOf Sel.ellip + 1)) dims := by
  simp only [numpyShape, h1]
  norm_num
  intro hcon
  exact absurd hcon (Nat.not_lt.mpr hcons)

theorem rangeLen_one (start stop : Int) (h : start < stop) :
    rangeLen start stop 1 = stop - start := by
  unfold rangeLen
  rw [if_pos one_pos]
  have h1 : stop - start + 1 - 1 = stop - start := by ring
  rw [h1, Int.ediv_one, max_eq_right (by omega)]

theorem consumes_length (idx : List Sel) (h : Sel.none ∉ idx) :
    (idx.filter numpyConsumes).length + idx.count Sel.ellip = idx.length := by
  induction idx with
  | nil => simp
  | cons a rest ih =>
    have hrest : Sel.none ∉ rest := fun hm => h (List.mem_cons_of_mem a hm)
    have ha : a ≠ Sel.none := fun he => h (he ▸ List.mem_cons_self a rest)
    have ihr := ih hrest
    cases a with
    | none => exact absurd rfl ha
    | ellip =>
      simp only [List.filter_cons, List.count_cons, List.length_cons]
      norm_num [numpyConsumes]
      omega
    | int i =>
      simp [List.filter_cons, List.count_cons, numpyConsumes]
      omega
    | slc sa sb sc =>
      simp [List.filter_cons, List.count_cons, numpyConsumes]
      omega

theorem not_mem_take_indexOf (l : List Sel) (e : Sel) :
    e ∉ l.take (l.indexOf e) := by
  induction l with
  | nil => simp
  | cons a rest ih =>
    by_cases hae : a = e
    · subst hae
      rw [List.indexOf_cons_self]
      simp
    · rw [List.indexOf_cons_ne _ hae, List.take_succ_cons]
      intro hmem
      rcases List.mem_cons.mp hmem with h | h
      · exact hae h.symm
      · exact ih h

theorem not_mem_drop_indexOf (l : List Sel) (e : Sel) (h : l.count e = 1) :
    e ∉ l.drop (l.indexOf e + 1) := by
  induction l with
  | nil => simp
  | cons a rest ih =>
    by_cases hae : a = e
    · subst hae
      rw [List.indexOf_cons_self, List.drop_succ_cons]
      have hc : rest.count a = 0 := by
        rw [List.count_cons_self] at h
        omega
      simp [List.count_eq_zero.mp hc]
    · rw [List.indexOf_cons_ne _ hae, List.drop_succ_cons]
      apply ih
      rw [List.count_cons] at h
      have : (a == e) = false := by
        simp [hae]
      rw [this] at h
      simpa using h

theorem selLoop_cons (a : Sel) (d : Int) (L : List (Sel × Int)) :
    selLoop ((a, d) :: L) =
      match applySel a d with
      | .error e => .error e
      | .ok (s0, dims0) =>
        match selLoop L with
        | .error e => .error e
        | .ok (sel, shape) => .ok (s0 :: sel, dims0 ++ shape) := rfl

theorem selLoop_replicate_none (dims : List Int) :
    selLoop ((List.replicate dims.length Sel.none).zip dims) =
      .ok (dims.map (fun d => (0, d)), dims) := by
  induction dims with
  | nil => rfl
  | cons d ds ih =>
    have ih2 : selLoop (List.zipWith Prod.mk (List.replicate ds.length Sel.none) ds) =
        Except.ok (ds.map (fun d => (0, d)), ds) := ih
    simp only [List.length_cons, List.replicate_succ, List.zip_cons_cons, selLoop,
      applySel, List.map_cons, ih2]
    rfl

theorem selLoop_numpyWalk (args : List Sel) :
    ∀ (dims : List Int) (sel : List (Int × Int)) (shp s : List Int),
    Sel.none ∉ args → Sel.ellip ∉ args → args.length ≤ dims.length →
    selLoop ((args ++ List.replicate (dims.length - args.length) Sel.none).zip dims) =
      .ok (sel, shp) →
    numpyWalk args dims = Option.some s → shp = s := by
  induction args with
  | nil =>
    intro dims sel shp s _ _ _ hl hn
    simp only [numpyWalk, Option.some.injEq] at hn
    rw [List.nil_append, List.length_nil, Nat.sub_zero, selLoop_replicate_none] at hl
    simp only [Except.ok.injEq, Prod.mk.injEq] at hl
    rw [← hl.2, ← hn]
  | cons a rest ih =>
    intro dims sel shp s hnone hellip hlen hl hn
    cases dims with
    | nil => simp at hlen
    | cons d ds =>
      have hrest_none : Sel.none ∉ rest := fun hm => hnone (List.mem_cons_of_mem a hm)
      have hrest_ellip : Sel.ellip ∉ rest := fun hm => hellip (List.mem_cons_of_mem a hm)
      have hlen2 : rest.length ≤ ds.length := by
        simp only [List.length_cons] at hlen
        omega
      have hz : ((a :: rest) ++
          List.replicate ((d :: ds).length - (a :: rest).length) Sel.none).zip (d :: ds) =
          (a, d) :: ((rest ++ List.replicate (ds.length - rest.length) Sel.none).zip ds) := by
        simp [List.length_cons, Nat.succ_sub_succ]
      rw [hz] at hl
      cases a with
      | none => exact absurd (List.mem_cons_self _ _) hnone
      | ellip => exact absurd (List.mem_cons_self _ _) hellip
      | int i =>
        simp only [selLoop, applySel] at hl
        rcases hrec : selLoop ((rest ++
            List.replicate (ds.length - rest.length) Sel.none).zip ds) with e | ⟨sel2, shp2⟩
        · rw [hrec] at hl
          cases hl
        · rw [hrec] at hl
          simp only [Except.ok.injEq, Prod.mk.injEq, List.nil_append] at hl
          simp only [numpyWalk] at hn
          split at hn
          · exact hl.2 ▸ ih ds sel2 shp2 s hrest_none hrest_ellip hlen2 hrec hn
          · cases hn
      | slc sa sb sc =>
        rcases hsi : sliceIndices sa sb sc d with e | ⟨start, stop, step⟩
        · have happ : applySel (Sel.slc sa sb sc) d = .error e := by
            simp [applySel, hsi]
          rw [selLoop_cons, happ] at hl
          simp at hl
        · simp only [numpyWalk, hsi] at hn
          rcases hw : numpyWalk rest ds with _ | s2
          · rw [hw] at hn
            cases hn
          · rw [hw] at hn
            simp only [Option.map_some', Option.some.injEq] at hn
            by_cases hlt : start < stop
            · by_cases hstep : step = 1
              · have happ : applySel (Sel.slc sa sb sc) d =
                    .ok ((start, stop - start), [stop - start]) := by
                  simp [applySel, hsi, hlt, hstep]
                rw [selLoop_cons, happ] at hl
                rcases hrec : selLoop ((rest ++
                    List.replicate (ds.length - rest.length) Sel.none).zip ds) with
                  e | ⟨sel2, shp2⟩
                · rw [hrec] at hl
                  simp at hl
                · rw [hrec] at hl
                  simp only [Except.ok.injEq, Prod.mk.injEq, List.singleton_append] at hl
                  have hih := ih ds sel2 shp2 s2 hrest_none hrest_ellip hlen2 hrec hw
                  rw [← hn, ← hl.2, hstep, rangeLen_one start stop hlt, hih]
              · have happ : applySel (Sel.slc sa sb sc) d = .error .assertionError := by
                  simp [applySel, hsi, hlt, hstep]
                rw [selLoop_cons, happ] at hl
                simp at hl
            · have happ : applySel (Sel.slc sa sb sc) d = .error .assertionError := by
                simp [applySel, hsi, hlt]
              rw [selLoop_cons, happ] at hl
              simp at hl

theorem numpyShape_one_toomany (dims : List Int) (idx : List Sel)
    (h1 : idx.count Sel.ellip = 1)
    (hcons : dims.length < (idx.filter numpyConsumes).length) :
    numpyShape dims idx = Option.none := by
  simp only [numpyShape, h1]
  norm_num [hcons]

theorem read_ok_translate (env : ReadEnv) (index : List Sel)
    (calls : List EngineCall) (shp : List Int)
    (hread : File._read env index = (calls, .ok shp)) :
    ∃ sel, translateIndex env.nsteps env.varShape index = .ok (sel, shp) := by
  rcases ht : translateIndex env.nsteps env.varShape index with e | ⟨sel, arr⟩
  · simp only [File._read, ht] at hread
    simp at hread
  · refine ⟨sel, ?_⟩
    simp only [File._read, ht] at hread
    by_cases hm : env.mode = "rra"
    · rw [if_pos hm] at hread
      have h2 := congrArg Prod.snd hread
      simp at h2
      rw [h2]
    · rw [if_neg hm] at hread
      split at hread
      · have h2 := congrArg Prod.snd hread
        simp at h2
      · have h2 := congrArg Prod.snd hread
        simp at h2
        rw [h2]

/-- C1 (amended): for every index expression without a `None` selector, when
the read succeeds and numpy basic indexing accepts the expression, the
returned array has exactly the shape numpy-style indexing of an array of
shape `(steps, *shape)` would produce: full-range and right-padded
dimensions contribute their full length, a slice contributes `stop - start`,
and an integer selector drops its dimension.  (`None` is excluded: the code
treats it as a full-range selector while numpy would insert a new length-1
axis.) -/
theorem C1_result_shape_matches_numpy (env : ReadEnv) (index : List Sel)
    (calls : List EngineCall) (shp s : List Int)
    (hnone : Sel.none ∉ index)
    (hread : File._read env index = (calls, .ok shp))
    (hnp : numpyShape (varShapeFull env.nsteps env.varShape) index = Option.some s) :
    shp = s := by
  obtain ⟨sel, ht⟩ := read_ok_translate env index calls shp hread
  rcases hex : expandEllipsis index (varShapeFull env.nsteps env.varShape).length with
    e | args
  · simp [translateIndex, hex] at ht
  · simp only [translateIndex, hex] at ht
    by_cases hle : args.length ≤ (varShapeFull env.nsteps env.varShape).length
    · rw [if_pos hle] at ht
      by_cases h2 : index.count Sel.ellip > 1
      · rw [show expandEllipsis index (varShapeFull env.nsteps env.varShape).length =
            .error (.indexError "an index can only have a single ellipsis (\x27...\x27)")
            from by simp [expandEllipsis, h2]] at hex
        cases hex
      · by_cases h1 : index.count Sel.ellip = 1
        · -- single-ellipsis case
          have hmem : Sel.ellip ∈ index := List.count_pos_iff.mp (by omega)
          have hlen1 : 1 ≤ index.length := by
            cases index with
            | nil => cases hmem
            | cons a rest => simp
          have hcl := consumes_length index hnone
          rw [expandEllipsis_one index _ h1] at hex
          have hargs := Except.ok.inj hex
          -- numpyShape side
          by_cases hcons :
              (index.filter numpyConsumes).length ≤
                (varShapeFull env.nsteps env.varShape).length
          · rw [numpyShape_one _ index h1 hcons] at hnp
            have hkk : (((varShapeFull env.nsteps env.varShape).length : Int) -
                (index.length : Int) + 1).toNat =
                (varShapeFull env.nsteps env.varShape).length -
                  (index.filter numpyConsumes).length := by
              omega
            rw [hkk] at hargs
            have hnone2 : Sel.none ∉ args := by
              rw [← hargs]
              intro hmm
              rcases List.mem_append.mp hmm with hmm | hmm
              · rcases List.mem_append.mp hmm with hmm | hmm
                · exact hnone (List.take_subset _ _ hmm)
                · exact absurd (List.eq_of_mem_replicate hmm) (by decide)
              · exact hnone (List.drop_subset _ _ hmm)
            have hellip2 : Sel.ellip ∉ args := by
              rw [← hargs]
              intro hmm
              rcases List.mem_append.mp hmm with hmm | hmm
              · rcases List.mem_append.mp hmm with hmm | hmm
                · exact not_mem_take_indexOf index Sel.ellip hmm
                · exact absurd (List.eq_of_mem_replicate hmm) (by decide)
              · exact not_mem_drop_indexOf index Sel.ellip h1 hmm
            rw [hargs] at hnp
            exact selLoop_numpyWalk args _ sel shp s hnone2 hellip2 hle ht hnp
          · -- numpy rejects: too many consuming selectors; contradiction with hnp
            exfalso
            rw [numpyShape_one_toomany _ index h1 (Nat.not_le.mp hcons)] at hnp
            cases hnp
        · -- no ellipsis
          have h0 : index.count Sel.ellip = 0 := by omega
          rw [expandEllipsis_zero index _ h0] at hex
          have hargs := Except.ok.inj hex
          subst hargs
          rw [numpyShape_zero _ index h0] at hnp
          have hellip0 : Sel.ellip ∉ index := List.count_eq_zero.mp h0
          exact selLoop_numpyWalk index _ sel shp s hnone hellip0 hle ht hnp
    · rw [if_neg hle] at ht
      cases ht

/-- C1 counterexample: reading `variable[None]` on a scalar variable of a
2-step file succeeds with shape `[2]`, while numpy indexing of an array of
shape `(2,)` with `None` yields shape `(1, 2)`: the claim fails for `None`
selectors, which the code treats as full ranges rather than new axes. -/
theorem C1_counterexample :
    File._read ⟨"rra", false, -1, 2, []⟩ [Sel.none] =
      ([EngineCall.setStepSelection 0 2, EngineCall.get [2]], .ok [2])
    ∧ numpyShape (varShapeFull 2 []) [Sel.none] = Option.some [1, 2]
    ∧ ([2] : List Int) ≠ [1, 2] :=
  ⟨rfl, rfl, by decide⟩

/-- C1 witness: reading `variable[1]` of a 1-D variable of length 5 on a
2-step file returns shape `[5]`, exactly numpy's shape for that index on an
array of shape `(2, 5)`. -/
theorem C1_witness :
    Sel.none ∉ ([Sel.int 1] : List Sel)
    ∧ File._read ⟨"rra", false, -1, 2, [5]⟩ [Sel.int 1] =
      ([EngineCall.setStepSelection 1 1, EngineCall.setSelection [0] [5],
        EngineCall.get [5]], .ok [5])
    ∧ numpyShape (varShapeFull 2 [5]) [Sel.int 1] = Option.some [5]
    ∧ ([5] : List Int) = [5] :=
  ⟨by decide, rfl, rfl,
    C1_result_shape_matches_numpy ⟨"rra", false, -1, 2, [5]⟩ [Sel.int 1]
      [EngineCall.setStepSelection 1 1, EngineCall.setSelection [0] [5],
        EngineCall.get [5]] [5] [5] (by decide) rfl rfl⟩
